import Mathlib

/-!
Verification of the illufly-upload per-user quota-enforcing file storage
manager.  The SDK layer (`client.py`: `UploadClient`, `SyncUploadClient`)
is embedded from the source.  The core service (`upload.py`:
`UploadService`, `FileStatus`) is imported throughout the repository but
its source file is absent, so its operations are modelled from the
specification (sections 3, 4.1-4.4) and marked `Modelled from the spec:`.

Machine integers are modelled as `Nat` (Python integers are unbounded,
and all sizes and timestamps in the program are non-negative).  The file
system is modelled as a map from path strings to optional byte lists;
byte values are `Nat`.
-/

/-- Modelled from the spec: the `FileStatus` enumeration of `upload.py`
(absent from src/): `status` is `{ACTIVE, DELETED}`. -/
inductive FileStatus where
  | active
  | deleted
deriving DecidableEq, Repr

/-- Modelled from the spec: one `FileRecord` per uploaded file (spec §3).
`id` is modelled as a `Nat` drawn from a fresh counter, standing for the
globally unique identifier assigned at creation. -/
structure FileRecord where
  id : Nat
  owner : String
  original_name : String
  extension : String
  size_bytes : Nat
  status : FileStatus
  created_at : Nat
  deleted_at : Option Nat
  metadata : List (String × String)
deriving DecidableEq, Repr

/-- Modelled from the spec: the validation error kinds of §7 raised by the
write path (`InvalidFileType`, `FileTooLarge`, `QuotaExceeded`). -/
inductive UploadError where
  | invalidFileType
  | fileTooLarge
  | quotaExceeded
deriving DecidableEq, Repr

/-- Configuration surface of the service (spec §6): per-file size limit,
per-user total size limit, allowed-extensions allowlist (absent = no
restriction).  Mirrors the constructor arguments of `UploadClient`
(`client.py` lines 17-40). -/
structure Config where
  max_file_size : Nat
  max_total_size_per_user : Nat
  allowed_extensions : Option (List String)
deriving DecidableEq, Repr

/-- Modelled from the spec: the mutable state of `UploadService` (absent
from src/): the Metadata Store (list of records), the Storage Layout
(paths to byte content), the Quota Tracker aggregate, and the counter
that generates fresh unique ids. -/
@[ext]
structure ServiceState where
  records : List FileRecord
  disk : String → Option (List Nat)
  used : String → Nat
  next_id : Nat

/-- The empty initial state: no records, no bytes on disk, zero quota. -/
def initState : ServiceState :=
  { records := [], disk := fun _ => none, used := fun _ => 0, next_id := 0 }

namespace UploadService

/-- Modelled from the spec: `used_bytes(owner)`, the Quota Tracker
aggregate (spec §4.3). -/
def usedBytes (σ : ServiceState) (u : String) : Nat := σ.used u

/-- The contribution of one record to user `u`'s ACTIVE-byte total:
`size_bytes` if the record is `u`'s and ACTIVE, else 0. -/
def activeSize (u : String) (r : FileRecord) : Nat :=
  if r.owner = u ∧ r.status = FileStatus.active then r.size_bytes else 0

/-- Ground truth for the quota (spec §3 QuotaState): the sum of
`size_bytes` over `u`'s ACTIVE records. -/
def activeSum (σ : ServiceState) (u : String) : Nat :=
  (σ.records.map (activeSize u)).sum

/-- Lowercase an ASCII character (a kernel-reducible model of
`str.lower` applied characterwise). -/
def lowerChar (c : Char) : Char :=
  if 65 ≤ c.toNat && c.toNat ≤ 90 then Char.ofNat (c.toNat + 32) else c

/-- Lowercase a string characterwise. -/
def lowerStr (s : String) : String := String.mk (s.toList.map lowerChar)

/-- The characters after the last dot of the list, if any dot occurs. -/
def extOfAux : List Char → Option (List Char)
  | [] => none
  | c :: cs =>
    match extOfAux cs with
    | some e => some e
    | none => if c = '.' then some cs else none

/-- Modelled from the spec: the extension of an uploaded name, derived
at creation (spec §3): a dot followed by the characters after the last
dot of `filename`, or empty when `filename` has no dot (the shape of
`pathlib.Path(...).suffix`). -/
def extOf (filename : String) : String :=
  match extOfAux filename.toList with
  | some e => String.mk ('.' :: e)
  | none => ""

/-- Modelled from the spec: extension admission (spec §4.1 check 1): if
an allowlist is configured the extension must be a member; no allowlist
means no restriction. -/
def extAllowed (cfg : Config) (ext : String) : Bool :=
  match cfg.allowed_extensions with
  | none => true
  | some allow => allow.contains ext

/-- Modelled from the spec: the on-disk path of a record, derived
deterministically from owner, file id and extension (spec §6). -/
def pathOf (r : FileRecord) : String :=
  r.owner ++ "/" ++ toString r.id ++ r.extension

/-- The fresh ACTIVE record a successful save inserts: fresh id from the
counter, lowercase extension derived from the uploaded name, size from
the content length (spec §3, §4.1). -/
def newRecord (σ : ServiceState) (owner filename : String)
    (content : List Nat) (meta : List (String × String)) (now : Nat) :
    FileRecord :=
  { id := σ.next_id, owner := owner, original_name := filename,
    extension := lowerStr (extOf filename), size_bytes := content.length,
    status := FileStatus.active, created_at := now, deleted_at := none,
    metadata := meta }

/-- The state after the side effects of a successful save (spec §4.1):
bytes written at the derived path, record inserted, owner's quota
aggregate incremented, id counter advanced. -/
def saveApply (σ : ServiceState) (owner filename : String)
    (content : List Nat) (meta : List (String × String)) (now : Nat) :
    ServiceState :=
  { records := σ.records ++ [newRecord σ owner filename content meta now],
    disk := fun p =>
      if p = pathOf (newRecord σ owner filename content meta now)
      then some content else σ.disk p,
    used := fun u => if u = owner then usedBytes σ owner + content.length
                     else σ.used u,
    next_id := σ.next_id + 1 }

/-- Modelled from the spec: `save(owner, filename, content, metadata)`
(spec §4.1).  Validation in order: extension, single-file size, quota;
side effects only after all checks pass: fresh id, write bytes, insert
ACTIVE record, increment the owner's quota aggregate. -/
def save_file (cfg : Config) (σ : ServiceState) (owner filename : String)
    (content : List Nat) (meta : List (String × String)) (now : Nat) :
    Except UploadError (ServiceState × FileRecord) :=
  if extAllowed cfg (lowerStr (extOf filename)) = false then
    Except.error UploadError.invalidFileType
  else if cfg.max_file_size < content.length then
    Except.error UploadError.fileTooLarge
  else if cfg.max_total_size_per_user < usedBytes σ owner + content.length then
    Except.error UploadError.quotaExceeded
  else
    Except.ok (saveApply σ owner filename content meta now,
               newRecord σ owner filename content meta now)

/-- Modelled from the spec: `get(owner, id)` (spec §4.2): the record is
looked up under the owner's partition (storage is keyed by user then
file id, spec §2), so a foreign or absent id yields `none` alike. -/
def get_file (σ : ServiceState) (owner : String) (fid : Nat) :
    Option FileRecord :=
  σ.records.find? (fun r => r.owner == owner && r.id == fid)

/-- Modelled from the spec: `list(owner, include_deleted)` (spec §4.2):
the owner's records, restricted to ACTIVE unless deleted ones are
requested. -/
def list_files (σ : ServiceState) (owner : String) (include_deleted : Bool) :
    List FileRecord :=
  σ.records.filter
    (fun r => r.owner == owner &&
      (include_deleted || r.status == FileStatus.active))

/-- The predicate selecting the owner's ACTIVE record with the given id
(the target of `update_metadata` and `delete`). -/
def activePred (owner : String) (fid : Nat) (r : FileRecord) : Bool :=
  r.owner == owner && r.id == fid && r.status == FileStatus.active

/-- Replace the metadata mapping of the owner's record with the given
id, leaving every other record unchanged. -/
def metaMap (owner : String) (fid : Nat) (m : List (String × String))
    (q : FileRecord) : FileRecord :=
  if q.owner == owner && q.id == fid then { q with metadata := m } else q

/-- Modelled from the spec: `update_metadata(owner, id, new_metadata)`
(spec §4.2): replaces the metadata wholesale for an ACTIVE record owned
by `owner`; returns false if the record is absent, foreign or DELETED. -/
def update_metadata (σ : ServiceState) (owner : String) (fid : Nat)
    (m : List (String × String)) : Bool × ServiceState :=
  match σ.records.find? (activePred owner fid) with
  | none => (false, σ)
  | some _ =>
    (true, { σ with records := σ.records.map (metaMap owner fid m) })

/-- Mark a record soft-deleted: status DELETED, `deleted_at` set. -/
def markDeleted (now : Nat) (q : FileRecord) : FileRecord :=
  { q with status := FileStatus.deleted, deleted_at := some now }

/-- Soft-delete the owner's record with the given id, leaving every
other record unchanged. -/
def delMap (owner : String) (fid : Nat) (now : Nat) (q : FileRecord) :
    FileRecord :=
  if q.owner == owner && q.id == fid then markDeleted now q else q

/-- Modelled from the spec: `delete(owner, id)` (spec §4.2): transitions
ACTIVE → DELETED, sets `deleted_at`, decrements the quota aggregate
immediately; bytes stay on disk.  Returns false when the record is
absent, foreign or already DELETED. -/
def delete_file (σ : ServiceState) (owner : String) (fid : Nat) (now : Nat) :
    Bool × ServiceState :=
  match σ.records.find? (activePred owner fid) with
  | none => (false, σ)
  | some r =>
    (true,
      { σ with
        records := σ.records.map (delMap owner fid now),
        used := fun u => if u = owner then usedBytes σ owner - r.size_bytes
                         else σ.used u })

/-- Modelled from the spec: a DELETED record whose `deleted_at` is older
than the retention threshold is eligible for physical purge (spec §4.4). -/
def purgeEligible (now retention : Nat) (r : FileRecord) : Bool :=
  r.status == FileStatus.deleted &&
    match r.deleted_at with
    | some d => decide (d + retention ≤ now)
    | none => false

/-- Modelled from the spec: one run of the Cleanup Scheduler (spec §4.4):
every DELETED record past the retention threshold loses its on-disk
bytes (removing an already-absent file is a no-op, not an error) and its
metadata record; the quota aggregate is untouched (it was released at
soft-delete time, spec §4.3). -/
def cleanup_run (σ : ServiceState) (now retention : Nat) : ServiceState :=
  { σ with
    records := σ.records.filter (fun r => !purgeEligible now retention r),
    disk := fun p =>
      if σ.records.any (fun r => purgeEligible now retention r && (pathOf r == p))
      then none else σ.disk p }

/-- Modelled from the spec: `resolve_path(owner, id)` (spec §4.2):
the on-disk path, only for ACTIVE records owned by `owner`. -/
def resolve_path (σ : ServiceState) (owner : String) (fid : Nat) :
    Option String :=
  match σ.records.find? (activePred owner fid) with
  | none => none
  | some r => some (pathOf r)

/-- The operations that drive the service state (save, delete,
update-metadata, cleanup); `list`, `get` and `resolve_path` are read-only
and do not appear. -/
inductive Op where
  | save (owner filename : String) (content : List Nat)
      (meta : List (String × String)) (now : Nat)
  | del (owner : String) (fid : Nat) (now : Nat)
  | upd (owner : String) (fid : Nat) (m : List (String × String))
  | cleanup (now retention : Nat)

/-- Apply one operation to the state; a rejected save leaves the state
unchanged (spec §4.1: fail fast, no partial writes). -/
def applyOp (cfg : Config) (σ : ServiceState) : Op → ServiceState
  | Op.save owner filename content meta now =>
    match save_file cfg σ owner filename content meta now with
    | Except.ok (σ2, _) => σ2
    | Except.error _ => σ
  | Op.del owner fid now => (delete_file σ owner fid now).2
  | Op.upd owner fid m => (update_metadata σ owner fid m).2
  | Op.cleanup now retention => cleanup_run σ now retention

/-- The state reached from the empty initial state by a sequence of
operations. -/
def run (cfg : Config) (ops : List Op) : ServiceState :=
  ops.foldl (applyOp cfg) initState

end UploadService

open UploadService

/-- The errors `UploadClient.upload_file` can raise (`client.py` lines
52-54 and the service's validation errors): `FileNotFoundError` when the
local source path does not exist, else whatever `save_file` raises. -/
inductive ClientError where
  | fileNotFound
  | upload (e : UploadError)
deriving DecidableEq, Repr

/-- `UploadClient` (`client.py` lines 11-40): holds the service
configuration and the fixed `user_id` on whose behalf every call is
made. -/
structure UploadClient where
  cfg : Config
  user_id : String

/-- `UploadClient.upload_file` (`client.py` lines 42-76): raises
`FileNotFoundError` when the local path does not exist (modelled as the
content being absent), otherwise saves the file's bytes under its name
via the service. -/
def UploadClient.upload_file (c : UploadClient) (σ : ServiceState)
    (localContent : Option (List Nat)) (filename : String)
    (meta : List (String × String)) (now : Nat) :
    Except ClientError (ServiceState × FileRecord) :=
  match localContent with
  | none => Except.error ClientError.fileNotFound
  | some content =>
    match save_file c.cfg σ c.user_id filename content meta now with
    | Except.ok res => Except.ok res
    | Except.error e => Except.error (ClientError.upload e)

/-- `UploadClient.list_files` (`client.py` lines 78-87): delegates to the
service for the client's user. -/
def UploadClient.list_files (c : UploadClient) (σ : ServiceState)
    (include_deleted : Bool) : List FileRecord :=
  UploadService.list_files σ c.user_id include_deleted

/-- `UploadClient.get_file_info` (`client.py` lines 89-98): delegates to
the service for the client's user. -/
def UploadClient.get_file_info (c : UploadClient) (σ : ServiceState)
    (fid : Nat) : Option FileRecord :=
  get_file σ c.user_id fid

/-- `UploadClient.update_metadata` (`client.py` lines 100-110): delegates
to the service for the client's user. -/
def UploadClient.update_metadata (c : UploadClient) (σ : ServiceState)
    (fid : Nat) (m : List (String × String)) : Bool × ServiceState :=
  UploadService.update_metadata σ c.user_id fid m

/-- `UploadClient.delete_file` (`client.py` lines 112-121): delegates to
the service for the client's user. -/
def UploadClient.delete_file (c : UploadClient) (σ : ServiceState)
    (fid : Nat) (now : Nat) : Bool × ServiceState :=
  UploadService.delete_file σ c.user_id fid now

/-- `UploadClient.get_file_path` (`client.py` lines 123-132): delegates
to the service's path resolution for the client's user. -/
def UploadClient.get_file_path (c : UploadClient) (σ : ServiceState)
    (fid : Nat) : Option String :=
  resolve_path σ c.user_id fid

/-- `UploadClient.save_to_local` (`client.py` lines 134-162): fetches the
record; returns false when it is absent or not ACTIVE, or when the stored
bytes are missing on disk; otherwise copies the full content to
`target_path` and returns true.  The result pairs the returned Bool with
the file system after the call (directory creation is not modelled: the
file system is a flat path map). -/
def UploadClient.save_to_local (c : UploadClient) (σ : ServiceState)
    (fid : Nat) (target : String) : Bool × (String → Option (List Nat)) :=
  match get_file σ c.user_id fid with
  | none => (false, σ.disk)
  | some r =>
    if r.status == FileStatus.active then
      match σ.disk (pathOf r) with
      | none => (false, σ.disk)
      | some content =>
        (true, fun p => if p = target then some content else σ.disk p)
    else (false, σ.disk)

/-- `SyncUploadClient` (`client.py` lines 169-199): wraps an
`UploadClient`. -/
structure SyncUploadClient where
  client : UploadClient

/-- `SyncUploadClient._run_async` (`client.py` lines 201-203):
`loop.run_until_complete(coro)` returns the coroutine's value, or
re-raises its exception; on an `Except`-valued outcome both are the
outcome itself. -/
def SyncUploadClient.run_async (_s : SyncUploadClient) (x : α) : α := x

/-- `SyncUploadClient.upload_file` (`client.py` lines 205-207). -/
def SyncUploadClient.upload_file (s : SyncUploadClient) (σ : ServiceState)
    (localContent : Option (List Nat)) (filename : String)
    (meta : List (String × String)) (now : Nat) :
    Except ClientError (ServiceState × FileRecord) :=
  s.run_async (s.client.upload_file σ localContent filename meta now)

/-- `SyncUploadClient.list_files` (`client.py` lines 209-211). -/
def SyncUploadClient.list_files (s : SyncUploadClient) (σ : ServiceState)
    (include_deleted : Bool) : List FileRecord :=
  s.run_async (s.client.list_files σ include_deleted)

/-- `SyncUploadClient.get_file_info` (`client.py` lines 213-215). -/
def SyncUploadClient.get_file_info (s : SyncUploadClient) (σ : ServiceState)
    (fid : Nat) : Option FileRecord :=
  s.run_async (s.client.get_file_info σ fid)

/-- `SyncUploadClient.update_metadata` (`client.py` lines 217-219). -/
def SyncUploadClient.update_metadata (s : SyncUploadClient) (σ : ServiceState)
    (fid : Nat) (m : List (String × String)) : Bool × ServiceState :=
  s.run_async (s.client.update_metadata σ fid m)

/-- `SyncUploadClient.delete_file` (`client.py` lines 221-223). -/
def SyncUploadClient.delete_file (s : SyncUploadClient) (σ : ServiceState)
    (fid : Nat) (now : Nat) : Bool × ServiceState :=
  s.run_async (s.client.delete_file σ fid now)

/-- `SyncUploadClient.get_file_path` (`client.py` lines 225-227): the
only method that does not go through `_run_async` (the wrapped method is
already synchronous). -/
def SyncUploadClient.get_file_path (s : SyncUploadClient) (σ : ServiceState)
    (fid : Nat) : Option String :=
  s.client.get_file_path σ fid

/-- `SyncUploadClient.save_to_local` (`client.py` lines 229-231). -/
def SyncUploadClient.save_to_local (s : SyncUploadClient) (σ : ServiceState)
    (fid : Nat) (target : String) : Bool × (String → Option (List Nat)) :=
  s.run_async (s.client.save_to_local σ fid target)

/-- Configuration for the quota scenarios of spec §8: per-user total
limit 100 bytes, no allowlist, generous per-file limit. -/
def cfg100 : Config :=
  { max_file_size := 1000, max_total_size_per_user := 100,
    allowed_extensions := none }

/-- Configuration with allowlist `{.txt}` and per-user total limit 100. -/
def cfgTxt : Config :=
  { max_file_size := 1000, max_total_size_per_user := 100,
    allowed_extensions := some [".txt"] }

/-- A 60-byte content. -/
def bytes60 : List Nat := List.replicate 60 0

/-- A 50-byte content. -/
def bytes50 : List Nat := List.replicate 50 0

/-- A 150-byte content. -/
def bytes150 : List Nat := List.replicate 150 0

/-- A 200-byte content. -/
def bytes200 : List Nat := List.replicate 200 0

/-- The state of the §8 quota scenario after the successful 60-byte
upload A. -/
def scState1 : ServiceState :=
  applyOp cfg100 initState (Op.save "u" "a.bin" bytes60 [] 0)

/-- The state of the §8 quota scenario after upload A and the deletion
of A. -/
def scState2 : ServiceState := (delete_file scState1 "u" 0 1).2

/-- The reachability invariant: the quota aggregate of every user equals
the sum of that user's ACTIVE record sizes, every record id was drawn
from the fresh-id counter, and record ids are pairwise distinct. -/
def StateInv (σ : ServiceState) : Prop :=
  (∀ u, usedBytes σ u = activeSum σ u) ∧
  (∀ r ∈ σ.records, r.id < σ.next_id) ∧
  σ.records.Pairwise (fun a b => a.id ≠ b.id)

/-- The visible outcome of one atomic save (spec §5 requires the
validate-write-register-account sequence to be atomic with respect to
concurrent saves by the same user): whether it succeeded, and the state
it leaves behind (unchanged on rejection). -/
def saveOutcome (cfg : Config) (σ : ServiceState) (owner filename : String)
    (content : List Nat) (meta : List (String × String)) (now : Nat) :
    Bool × ServiceState :=
  match save_file cfg σ owner filename content meta now with
  | Except.ok (σ2, _) => (true, σ2)
  | Except.error _ => (false, σ)

/-- The record created by the scenario's first (60-byte) upload. -/
def scRecord : FileRecord :=
  { id := 0, owner := "u", original_name := "a.bin", extension := ".bin",
    size_bytes := 60, status := FileStatus.active, created_at := 0,
    deleted_at := none, metadata := [] }

/-- The scenario record after its soft deletion at time 1. -/
def scRecordDeleted : FileRecord := markDeleted 1 scRecord


theorem activeSize_markDeleted (u : String) (now : Nat) (q : FileRecord) :
    activeSize u (markDeleted now q) = 0 := by
  unfold activeSize markDeleted
  simp

theorem delMap_id (owner : String) (fid now : Nat) (q : FileRecord) :
    (delMap owner fid now q).id = q.id := by
  unfold delMap markDeleted
  split <;> rfl

theorem metaMap_id (owner : String) (fid : Nat) (m : List (String × String))
    (q : FileRecord) : (metaMap owner fid m q).id = q.id := by
  unfold metaMap
  split <;> rfl

theorem activeSize_metaMap (u owner : String) (fid : Nat)
    (m : List (String × String)) (q : FileRecord) :
    activeSize u (metaMap owner fid m q) = activeSize u q := by
  unfold metaMap activeSize
  split <;> rfl

theorem map_delMap_eq_self (owner : String) (fid now : Nat) :
    ∀ (l : List FileRecord), (∀ q ∈ l, q.id ≠ fid) →
    l.map (delMap owner fid now) = l := by
  intro l
  induction l with
  | nil => intro _; rfl
  | cons a t ih =>
    intro h
    have ha : (a.id == fid) = false := by
      simpa using h a (List.mem_cons_self a t)
    have haeq : delMap owner fid now a = a := by
      unfold delMap
      simp [ha]
    simp only [List.map_cons, haeq,
      ih (fun q hq => h q (List.mem_cons_of_mem a hq))]

theorem sum_delMap (u owner : String) (fid now : Nat) :
    ∀ (l : List FileRecord), l.Pairwise (fun a b => a.id ≠ b.id) →
    ∀ r ∈ l, r.id = fid → r.owner = owner →
    ((l.map (delMap owner fid now)).map (activeSize u)).sum + activeSize u r
      = (l.map (activeSize u)).sum := by
  intro l
  induction l with
  | nil => intro _ r hr; cases hr
  | cons a t ih =>
    intro hp r hr hid hown
    rw [List.pairwise_cons] at hp
    obtain ⟨ha, ht⟩ := hp
    rcases List.mem_cons.mp hr with rfl | hr
    · have hmark : delMap owner fid now r = markDeleted now r := by
        unfold delMap
        simp [hid, hown]
      have htail : t.map (delMap owner fid now) = t :=
        map_delMap_eq_self owner fid now t
          (fun q hq => by rw [← hid]; exact fun hcontra => ha q hq hcontra.symm)
      simp only [List.map_cons, List.sum_cons, hmark, htail,
        activeSize_markDeleted]
      omega
    · have hane : (a.id == fid) = false := by
        rw [← hid]
        simpa using ha r hr
      have haeq : delMap owner fid now a = a := by
        unfold delMap
        simp [hane]
      have := ih ht r hr hid hown
      simp only [List.map_cons, List.sum_cons, haeq]
      omega

theorem record_eq_of_id_eq :
    ∀ (l : List FileRecord), l.Pairwise (fun a b => a.id ≠ b.id) →
    ∀ a ∈ l, ∀ b ∈ l, a.id = b.id → a = b := by
  intro l
  induction l with
  | nil => intro _ a ha; cases ha
  | cons c t ih =>
    intro hp a ha b hb hid
    rw [List.pairwise_cons] at hp
    obtain ⟨hc, ht⟩ := hp
    rcases List.mem_cons.mp ha with ha2 | ha2
    · rcases List.mem_cons.mp hb with hb2 | hb2
      · rw [ha2, hb2]
      · rw [ha2] at hid
        exact absurd hid (hc b hb2)
    · rcases List.mem_cons.mp hb with hb2 | hb2
      · rw [hb2] at hid
        exact absurd hid.symm (hc a ha2)
      · exact ih ht a ha2 b hb2 hid

theorem sum_filter_zero (f : FileRecord → Nat) (p : FileRecord → Bool) :
    ∀ (l : List FileRecord), (∀ a ∈ l, p a = false → f a = 0) →
    ((l.filter p).map f).sum = (l.map f).sum := by
  intro l
  induction l with
  | nil => intro _; rfl
  | cons a t ih =>
    intro h
    have htail := ih (fun q hq hpq => h q (List.mem_cons_of_mem a hq) hpq)
    by_cases hp : p a = true
    · rw [List.filter_cons_of_pos hp]
      simp only [List.map_cons, List.sum_cons, htail]
    · have hpa : p a = false := by simpa using hp
      rw [List.filter_cons_of_neg (by simp [hpa])]
      have hfa : f a = 0 := h a (List.mem_cons_self a t) hpa
      simp only [List.map_cons, List.sum_cons, htail, hfa, Nat.zero_add]

theorem activePred_spec (owner : String) (fid : Nat) (r : FileRecord)
    (h : activePred owner fid r = true) :
    r.owner = owner ∧ r.id = fid ∧ r.status = FileStatus.active := by
  simp only [activePred, Bool.and_eq_true, beq_iff_eq] at h
  tauto

theorem delete_file_none (σ : ServiceState) (owner : String) (fid now : Nat)
    (h : σ.records.find? (activePred owner fid) = none) :
    delete_file σ owner fid now = (false, σ) := by
  unfold delete_file
  rw [h]

theorem delete_file_some (σ : ServiceState) (owner : String) (fid now : Nat)
    (r : FileRecord) (h : σ.records.find? (activePred owner fid) = some r) :
    delete_file σ owner fid now =
      (true,
        { σ with
          records := σ.records.map (delMap owner fid now),
          used := fun u => if u = owner then usedBytes σ owner - r.size_bytes
                           else σ.used u }) := by
  unfold delete_file
  rw [h]

theorem update_metadata_none (σ : ServiceState) (owner : String) (fid : Nat)
    (m : List (String × String))
    (h : σ.records.find? (activePred owner fid) = none) :
    update_metadata σ owner fid m = (false, σ) := by
  unfold update_metadata
  rw [h]

theorem update_metadata_some (σ : ServiceState) (owner : String) (fid : Nat)
    (m : List (String × String)) (r : FileRecord)
    (h : σ.records.find? (activePred owner fid) = some r) :
    update_metadata σ owner fid m =
      (true, { σ with records := σ.records.map (metaMap owner fid m) }) := by
  unfold update_metadata
  rw [h]

theorem activeSum_saveApply (σ : ServiceState) (owner filename : String)
    (content : List Nat) (meta : List (String × String)) (now : Nat)
    (u : String) :
    activeSum (saveApply σ owner filename content meta now) u
      = activeSum σ u
        + activeSize u (newRecord σ owner filename content meta now) := by
  unfold activeSum saveApply
  simp [List.map_append]

theorem activeSize_newRecord_self (σ : ServiceState) (owner filename : String)
    (content : List Nat) (meta : List (String × String)) (now : Nat) :
    activeSize owner (newRecord σ owner filename content meta now)
      = content.length := by
  unfold activeSize newRecord
  simp

theorem activeSize_newRecord_other (σ : ServiceState)
    (owner filename u : String) (content : List Nat)
    (meta : List (String × String)) (now : Nat) (hu : u ≠ owner) :
    activeSize u (newRecord σ owner filename content meta now) = 0 := by
  unfold activeSize newRecord
  simp only [ite_eq_right_iff]
  intro hcontra
  exact absurd hcontra.1 (fun he => hu he.symm)

theorem stateInv_saveApply (σ : ServiceState) (owner filename : String)
    (content : List Nat) (meta : List (String × String)) (now : Nat)
    (h : StateInv σ) :
    StateInv (saveApply σ owner filename content meta now) := by
  obtain ⟨hsum, hlt, huniq⟩ := h
  refine ⟨?_, ?_, ?_⟩
  · intro u
    rw [show usedBytes (saveApply σ owner filename content meta now) u
        = if u = owner then usedBytes σ owner + content.length else σ.used u
        from rfl]
    rw [activeSum_saveApply]
    by_cases hu : u = owner
    · subst hu
      rw [if_pos rfl, activeSize_newRecord_self, ← hsum u]
    · rw [if_neg hu, activeSize_newRecord_other σ owner filename u content meta now hu]
      rw [← hsum u]
      rfl
  · intro r hr
    rcases List.mem_append.mp hr with hr2 | hr2
    · exact Nat.lt_succ_of_lt (hlt r hr2)
    · rw [List.mem_singleton.mp hr2]
      exact Nat.lt_succ_self _
  · rw [show (saveApply σ owner filename content meta now).records
        = σ.records ++ [newRecord σ owner filename content meta now] from rfl]
    rw [List.pairwise_append]
    refine ⟨huniq, List.pairwise_singleton _ _, ?_⟩
    intro a ha b hb
    rw [List.mem_singleton.mp hb]
    exact Nat.ne_of_lt (hlt a ha)

theorem sum_metaMap (u owner : String) (fid : Nat)
    (m : List (String × String)) :
    ∀ (l : List FileRecord),
    ((l.map (metaMap owner fid m)).map (activeSize u)).sum
      = (l.map (activeSize u)).sum := by
  intro l
  induction l with
  | nil => rfl
  | cons a t ih =>
    simp only [List.map_cons, List.sum_cons, activeSize_metaMap, ih]

theorem stateInv_delete (σ : ServiceState) (owner : String) (fid now : Nat)
    (h : StateInv σ) : StateInv (delete_file σ owner fid now).2 := by
  obtain ⟨hsum, hlt, huniq⟩ := h
  cases hfind : σ.records.find? (activePred owner fid) with
  | none =>
    rw [delete_file_none σ owner fid now hfind]
    exact ⟨hsum, hlt, huniq⟩
  | some r =>
    rw [delete_file_some σ owner fid now r hfind]
    have hrmem := List.mem_of_find?_eq_some hfind
    have hpred := List.find?_some hfind
    obtain ⟨hown, hid, hact⟩ := activePred_spec owner fid r hpred
    refine ⟨?_, ?_, ?_⟩
    · intro u
      show (if u = owner then usedBytes σ owner - r.size_bytes else σ.used u)
        = ((σ.records.map (delMap owner fid now)).map (activeSize u)).sum
      have hkey := sum_delMap u owner fid now σ.records huniq r hrmem hid hown
      have hs : usedBytes σ u = (σ.records.map (activeSize u)).sum := hsum u
      by_cases hu : u = owner
      · subst hu
        rw [if_pos rfl]
        have hr : activeSize u r = r.size_bytes := by
          unfold activeSize
          rw [if_pos ⟨hown, hact⟩]
        omega
      · rw [if_neg hu]
        have hr : activeSize u r = 0 := by
          unfold activeSize
          rw [if_neg]
          rintro ⟨h1, -⟩
          exact hu (hown ▸ h1).symm
        have hs2 : σ.used u = (σ.records.map (activeSize u)).sum := hs
        omega
    · intro q hq
      show q.id < σ.next_id
      obtain ⟨q0, hq0, rfl⟩ := List.mem_map.mp hq
      rw [delMap_id]
      exact hlt q0 hq0
    · show (σ.records.map (delMap owner fid now)).Pairwise
        (fun a b => a.id ≠ b.id)
      rw [List.pairwise_map]
      exact huniq.imp (fun hab => by rw [delMap_id, delMap_id]; exact hab)

theorem stateInv_update (σ : ServiceState) (owner : String) (fid : Nat)
    (m : List (String × String)) (h : StateInv σ) :
    StateInv (update_metadata σ owner fid m).2 := by
  obtain ⟨hsum, hlt, huniq⟩ := h
  cases hfind : σ.records.find? (activePred owner fid) with
  | none =>
    rw [update_metadata_none σ owner fid m hfind]
    exact ⟨hsum, hlt, huniq⟩
  | some r =>
    rw [update_metadata_some σ owner fid m r hfind]
    refine ⟨?_, ?_, ?_⟩
    · intro u
      show σ.used u
        = ((σ.records.map (metaMap owner fid m)).map (activeSize u)).sum
      rw [sum_metaMap]
      exact hsum u
    · intro q hq
      show q.id < σ.next_id
      obtain ⟨q0, hq0, rfl⟩ := List.mem_map.mp hq
      rw [metaMap_id]
      exact hlt q0 hq0
    · show (σ.records.map (metaMap owner fid m)).Pairwise
        (fun a b => a.id ≠ b.id)
      rw [List.pairwise_map]
      exact huniq.imp (fun hab => by rw [metaMap_id, metaMap_id]; exact hab)

theorem stateInv_cleanup (σ : ServiceState) (now retention : Nat)
    (h : StateInv σ) : StateInv (cleanup_run σ now retention) := by
  obtain ⟨hsum, hlt, huniq⟩ := h
  refine ⟨?_, ?_, ?_⟩
  · intro u
    show σ.used u
      = (((σ.records.filter (fun r => !purgeEligible now retention r)).map
          (activeSize u))).sum
    rw [sum_filter_zero (activeSize u) _ σ.records]
    · exact hsum u
    · intro a ha hpa
      have hel : purgeEligible now retention a = true := by
        cases hE : purgeEligible now retention a
        · rw [hE] at hpa
          simp at hpa
        · rfl
      have hd : a.status = FileStatus.deleted := by
        unfold purgeEligible at hel
        rw [Bool.and_eq_true] at hel
        exact beq_iff_eq.mp hel.1
      simp [activeSize, hd]
  · intro q hq
    show q.id < σ.next_id
    exact hlt q (List.mem_of_mem_filter hq)
  · show ((σ.records.filter (fun r => !purgeEligible now retention r))).Pairwise
      (fun a b => a.id ≠ b.id)
    exact List.Pairwise.sublist (List.filter_sublist σ.records) huniq

theorem stateInv_applyOp (cfg : Config) (σ : ServiceState) (op : Op)
    (h : StateInv σ) : StateInv (applyOp cfg σ op) := by
  cases op with
  | save owner filename content meta now =>
    simp only [applyOp]
    unfold save_file
    by_cases c1 : extAllowed cfg (lowerStr (extOf filename)) = false
    · rw [if_pos c1]
      exact h
    · rw [if_neg c1]
      by_cases c2 : cfg.max_file_size < content.length
      · rw [if_pos c2]
        exact h
      · rw [if_neg c2]
        by_cases c3 : cfg.max_total_size_per_user
            < usedBytes σ owner + content.length
        · rw [if_pos c3]
          exact h
        · rw [if_neg c3]
          exact stateInv_saveApply σ owner filename content meta now h
  | del owner fid now =>
    simp only [applyOp]
    exact stateInv_delete σ owner fid now h
  | upd owner fid m =>
    simp only [applyOp]
    exact stateInv_update σ owner fid m h
  | cleanup now retention =>
    simp only [applyOp]
    exact stateInv_cleanup σ now retention h

theorem stateInv_initState : StateInv initState := by
  refine ⟨fun u => rfl, ?_, ?_⟩
  · intro r hr
    cases hr
  · exact List.Pairwise.nil

theorem stateInv_foldl (cfg : Config) (ops : List Op) :
    ∀ σ, StateInv σ → StateInv (ops.foldl (applyOp cfg) σ) := by
  induction ops with
  | nil => intro σ h; exact h
  | cons op t ih =>
    intro σ h
    exact ih _ (stateInv_applyOp cfg σ op h)

theorem stateInv_run (cfg : Config) (ops : List Op) : StateInv (run cfg ops) :=
  stateInv_foldl cfg ops initState stateInv_initState


/-- C1: for every user U and every state of the service reachable by any
sequence of save, delete, update-metadata and cleanup operations,
`used_bytes(U)` equals the sum of `size_bytes` over U's ACTIVE records. -/
theorem used_bytes_matches_active_records (cfg : Config) (ops : List Op)
    (u : String) :
    usedBytes (run cfg ops) u = activeSum (run cfg ops) u :=
  (stateInv_run cfg ops).1 u

set_option maxRecDepth 8192 in
/-- C2 counterexample: with allowlist `{.txt}` and per-user limit 100,
saving "a.pdf" with 200 bytes from the empty state satisfies the claim's
premise (used 0 + 200 exceeds 100), yet the save fails with
InvalidFileType — not QuotaExceeded (the extension check runs first). -/
theorem quota_claim_counterexample :
    cfgTxt.max_total_size_per_user < usedBytes initState "u" + bytes200.length ∧
    save_file cfgTxt initState "u" "a.pdf" bytes200 [] 0
      = Except.error UploadError.invalidFileType ∧
    save_file cfgTxt initState "u" "a.pdf" bytes200 [] 0
      ≠ Except.error UploadError.quotaExceeded := by
  have hs : save_file cfgTxt initState "u" "a.pdf" bytes200 [] 0
      = Except.error UploadError.invalidFileType := by rfl
  refine ⟨by decide, hs, ?_⟩
  rw [hs]
  intro hcontra
  exact UploadError.noConfusion (Except.error.inj hcontra)

/-- C2 (amended): when the extension check and the single-file size
check pass, a save whose content length added to `used_bytes(owner)`
exceeds the per-user total limit fails with QuotaExceeded and the state
is unchanged (no bytes written, no record inserted, quota unchanged). -/
theorem save_quota_exceeded (cfg : Config) (σ : ServiceState)
    (owner filename : String) (content : List Nat)
    (meta : List (String × String)) (now : Nat)
    (hext : extAllowed cfg (lowerStr (extOf filename)) = true)
    (hsize : content.length ≤ cfg.max_file_size)
    (hquota : cfg.max_total_size_per_user
      < usedBytes σ owner + content.length) :
    save_file cfg σ owner filename content meta now
      = Except.error UploadError.quotaExceeded ∧
    applyOp cfg σ (Op.save owner filename content meta now) = σ := by
  have c1 : ¬ (extAllowed cfg (lowerStr (extOf filename)) = false) := by
    rw [hext]
    simp
  have c2 : ¬ (cfg.max_file_size < content.length) := not_lt.mpr hsize
  have hsave : save_file cfg σ owner filename content meta now
      = Except.error UploadError.quotaExceeded := by
    unfold save_file
    rw [if_neg c1, if_neg c2, if_pos hquota]
  refine ⟨hsave, ?_⟩
  simp only [applyOp, hsave]

/-- Witness for C2 (amended): after the 60-byte upload, a 50-byte upload
by the same user is rejected with QuotaExceeded and changes nothing. -/
theorem save_quota_exceeded_witness :
    save_file cfg100 scState1 "u" "b.bin" bytes50 [] 1
      = Except.error UploadError.quotaExceeded ∧
    applyOp cfg100 scState1 (Op.save "u" "b.bin" bytes50 [] 1) = scState1 :=
  save_quota_exceeded cfg100 scState1 "u" "b.bin" bytes50 [] 1
    (by decide) (by decide) (by decide)

/-- C3: when an allowlist is configured and the lowercase extension of
the filename is not a member, save fails with InvalidFileType for every
content and every quota state (the extension check precedes the
single-file size check and the quota check), and the state is entirely
unchanged. -/
theorem save_invalid_file_type (cfg : Config) (σ : ServiceState)
    (owner filename : String) (content : List Nat)
    (meta : List (String × String)) (now : Nat) (allow : List String)
    (hconf : cfg.allowed_extensions = some allow)
    (hnot : allow.contains (lowerStr (extOf filename)) = false) :
    save_file cfg σ owner filename content meta now
      = Except.error UploadError.invalidFileType ∧
    applyOp cfg σ (Op.save owner filename content meta now) = σ := by
  have c1 : extAllowed cfg (lowerStr (extOf filename)) = false := by
    unfold extAllowed
    rw [hconf]
    exact hnot
  have hsave : save_file cfg σ owner filename content meta now
      = Except.error UploadError.invalidFileType := by
    unfold save_file
    rw [if_pos c1]
  refine ⟨hsave, ?_⟩
  simp only [applyOp, hsave]

/-- Witness for C3: with allowlist `{.txt}`, uploading "a.pdf" (200
bytes, which also exceeds the 100-byte quota) fails with
InvalidFileType and leaves the empty state unchanged. -/
theorem save_invalid_file_type_witness :
    save_file cfgTxt initState "u" "a.pdf" bytes200 [] 0
      = Except.error UploadError.invalidFileType ∧
    applyOp cfgTxt initState (Op.save "u" "a.pdf" bytes200 [] 0)
      = initState :=
  save_invalid_file_type cfgTxt initState "u" "a.pdf" bytes200 [] 0
    [".txt"] (by rfl) (by decide)

set_option maxRecDepth 8192 in
/-- C4: deleting an owner's ACTIVE record returns true, marks it DELETED
with `deleted_at` set, decrements `used_bytes(owner)` by the record's
size immediately, and leaves the disk bytes untouched (the id-uniqueness
hypothesis holds of every reachable state by `stateInv_run`); and the §8
scenario holds: with limit 100, the 60-byte upload succeeds (used 60),
a 50-byte upload is rejected with QuotaExceeded (used stays 60),
deleting the first file succeeds (used 0), and the 50-byte upload then
succeeds. -/
theorem delete_frees_quota :
    (∀ (σ : ServiceState) (owner : String) (now : Nat) (r : FileRecord),
      σ.records.Pairwise (fun a b => a.id ≠ b.id) →
      r ∈ σ.records → r.owner = owner → r.status = FileStatus.active →
      (delete_file σ owner r.id now).1 = true ∧
      (delete_file σ owner r.id now).2.disk = σ.disk ∧
      usedBytes (delete_file σ owner r.id now).2 owner
        = usedBytes σ owner - r.size_bytes ∧
      (∀ q ∈ (delete_file σ owner r.id now).2.records, q.id = r.id →
        q.status = FileStatus.deleted ∧ q.deleted_at = some now)) ∧
    ((save_file cfg100 initState "u" "a.bin" bytes60 [] 0).isOk = true ∧
     usedBytes scState1 "u" = 60 ∧
     save_file cfg100 scState1 "u" "b.bin" bytes50 [] 1
       = Except.error UploadError.quotaExceeded ∧
     usedBytes (applyOp cfg100 scState1 (Op.save "u" "b.bin" bytes50 [] 1))
       "u" = 60 ∧
     (delete_file scState1 "u" 0 1).1 = true ∧
     usedBytes scState2 "u" = 0 ∧
     (save_file cfg100 scState2 "u" "b.bin" bytes50 [] 2).isOk = true) := by
  constructor
  · intro σ owner now r huniq hrmem hown hact
    cases hfind : σ.records.find? (activePred owner r.id) with
    | none =>
      exfalso
      apply List.find?_eq_none.mp hfind r hrmem
      unfold activePred
      simp [hown, hact]
    | some r0 =>
      have hr0mem := List.mem_of_find?_eq_some hfind
      have hpred := List.find?_some hfind
      obtain ⟨hown0, hid0, hact0⟩ := activePred_spec owner r.id r0 hpred
      have hr0 : r0 = r :=
        record_eq_of_id_eq σ.records huniq r0 hr0mem r hrmem hid0
      subst hr0
      rw [delete_file_some σ owner r0.id now r0 hfind]
      refine ⟨rfl, rfl, ?_, ?_⟩
      · show (if owner = owner then usedBytes σ owner - r0.size_bytes
              else σ.used owner) = usedBytes σ owner - r0.size_bytes
        rw [if_pos rfl]
      · intro q hq hqid
        obtain ⟨q0, hq0, rfl⟩ := List.mem_map.mp hq
        rw [delMap_id] at hqid
        have hq0r : q0 = r0 :=
          record_eq_of_id_eq σ.records huniq q0 hq0 r0 hr0mem hqid
        subst hq0r
        have hmark : delMap owner q0.id now q0 = markDeleted now q0 := by
          unfold delMap
          simp [hown]
        rw [hmark]
        exact ⟨rfl, rfl⟩
  · refine ⟨by decide, by decide, by rfl, by decide, by decide, by decide,
      by decide⟩

set_option maxRecDepth 8192 in
/-- Witness for C4: applied to the concrete 60-byte record in the state
after the scenario's first upload. -/
theorem delete_frees_quota_witness :
    (delete_file scState1 "u" scRecord.id 1).1 = true ∧
    (delete_file scState1 "u" scRecord.id 1).2.disk = scState1.disk ∧
    usedBytes (delete_file scState1 "u" scRecord.id 1).2 "u"
      = usedBytes scState1 "u" - scRecord.size_bytes ∧
    (∀ q ∈ (delete_file scState1 "u" scRecord.id 1).2.records,
      q.id = scRecord.id →
      q.status = FileStatus.deleted ∧ q.deleted_at = some 1) :=
  delete_frees_quota.1 scState1 "u" 1 scRecord (by decide) (by decide)
    (by decide) (by decide)

theorem activePred_delMap_false (owner : String) (fid now : Nat)
    (q : FileRecord) :
    activePred owner fid (delMap owner fid now q) = false := by
  unfold delMap
  by_cases hc : (q.owner == owner && q.id == fid) = true
  · rw [if_pos hc]
    unfold activePred markDeleted
    simp
  · rw [if_neg hc]
    have hc2 : (q.owner == owner && q.id == fid) = false := by
      cases hB : (q.owner == owner && q.id == fid)
      · rfl
      · exact absurd hB hc
    unfold activePred
    rw [hc2, Bool.false_and]

/-- C5: delete returns false and changes nothing when the owner has no
ACTIVE record with the given id (the record is absent, foreign-owned, or
already DELETED); in particular, a second delete of the same id right
after any delete returns false and changes nothing. -/
theorem delete_not_found :
    (∀ (σ : ServiceState) (owner : String) (fid now : Nat),
      (∀ r ∈ σ.records,
        ¬(r.owner = owner ∧ r.id = fid ∧ r.status = FileStatus.active)) →
      delete_file σ owner fid now = (false, σ)) ∧
    (∀ (σ : ServiceState) (owner : String) (fid now now2 : Nat),
      delete_file (delete_file σ owner fid now).2 owner fid now2
        = (false, (delete_file σ owner fid now).2)) := by
  constructor
  · intro σ owner fid now h
    apply delete_file_none
    apply List.find?_eq_none.mpr
    intro r hr hpred
    obtain ⟨hown, hid, hact⟩ := activePred_spec owner fid r hpred
    exact h r hr ⟨hown, hid, hact⟩
  · intro σ owner fid now now2
    cases hfind : σ.records.find? (activePred owner fid) with
    | none =>
      rw [delete_file_none σ owner fid now hfind]
      exact delete_file_none σ owner fid now2 hfind
    | some r =>
      rw [delete_file_some σ owner fid now r hfind]
      apply delete_file_none
      apply List.find?_eq_none.mpr
      intro q hq hpred
      obtain ⟨q0, hq0, rfl⟩ := List.mem_map.mp hq
      rw [activePred_delMap_false owner fid now q0] at hpred
      cases hpred

/-- Witness for C5: deleting the already-deleted scenario record again
returns false and changes nothing. -/
theorem delete_not_found_witness :
    delete_file scState2 "u" 0 2 = (false, scState2) :=
  delete_not_found.1 scState2 "u" 0 2 (by decide)

/-- C6: get returns a record only when its owner matches the caller (and
its id matches), and whenever no record with the requested id belongs to
the caller — be the record foreign-owned or wholly absent — the result
is the very same not-found value, `none`, never a distinct
permission error. -/
theorem get_owner_scoped :
    (∀ (σ : ServiceState) (owner : String) (fid : Nat) (r : FileRecord),
      get_file σ owner fid = some r → r.owner = owner ∧ r.id = fid) ∧
    (∀ (σ : ServiceState) (owner : String) (fid : Nat),
      (∀ r ∈ σ.records, r.id = fid → r.owner ≠ owner) →
      get_file σ owner fid = none) := by
  constructor
  · intro σ owner fid r h
    have hpred := List.find?_some h
    simp only [Bool.and_eq_true, beq_iff_eq] at hpred
    exact hpred
  · intro σ owner fid h
    unfold get_file
    apply List.find?_eq_none.mpr
    intro r hr hpred
    simp only [Bool.and_eq_true, beq_iff_eq] at hpred
    exact (h r hr hpred.2) hpred.1

/-- Witness for C6: the record with id 0 belongs to "u", so user "v"
gets the not-found result. -/
theorem get_owner_scoped_witness :
    get_file scState1 "v" 0 = none :=
  get_owner_scoped.2 scState1 "v" 0 (by decide)

/-- C7: one cleanup run removes both the metadata record and the
on-disk bytes of every DELETED record past the retention threshold; the
records it purges do not depend on whether the bytes are still present
(an already-absent file is tolerated, not an error); and a second run on
the resulting state changes nothing at all. -/
theorem cleanup_purges_and_idempotent :
    (∀ (σ : ServiceState) (now retention : Nat) (r : FileRecord),
      r ∈ σ.records → purgeEligible now retention r = true →
      r ∉ (cleanup_run σ now retention).records ∧
      (cleanup_run σ now retention).disk (pathOf r) = none) ∧
    (∀ (σ : ServiceState) (now retention : Nat),
      (cleanup_run { σ with disk := fun _ => none } now retention).records
        = (cleanup_run σ now retention).records) ∧
    (∀ (σ : ServiceState) (now retention : Nat),
      cleanup_run (cleanup_run σ now retention) now retention
        = cleanup_run σ now retention) := by
  refine ⟨?_, ?_, ?_⟩
  · intro σ now retention r hr hel
    constructor
    · intro hmem
      have hfilt : (cleanup_run σ now retention).records
          = σ.records.filter (fun q => !purgeEligible now retention q) := rfl
      rw [hfilt] at hmem
      have h2 := (List.mem_filter.mp hmem).2
      rw [hel] at h2
      cases h2
    · have hany : σ.records.any
          (fun q => purgeEligible now retention q && (pathOf q == pathOf r))
          = true := by
        apply List.any_eq_true.mpr
        refine ⟨r, hr, ?_⟩
        rw [hel, Bool.true_and, beq_self_eq_true]
      show (if σ.records.any
          (fun q => purgeEligible now retention q && (pathOf q == pathOf r))
          then (none : Option (List Nat)) else σ.disk (pathOf r)) = none
      rw [hany]
      simp
  · intro σ now retention
    rfl
  · intro σ now retention
    have hfilt : (cleanup_run σ now retention).records
        = σ.records.filter (fun q => !purgeEligible now retention q) := rfl
    apply ServiceState.ext
    · rw [hfilt]
      show ((σ.records.filter (fun q => !purgeEligible now retention q)).filter
          (fun q => !purgeEligible now retention q))
        = σ.records.filter (fun q => !purgeEligible now retention q)
      apply List.filter_eq_self.mpr
      intro a ha
      exact (List.mem_filter.mp ha).2
    · funext p
      have hany : (cleanup_run σ now retention).records.any
          (fun q => purgeEligible now retention q && (pathOf q == p))
          = false := by
        cases hA : (cleanup_run σ now retention).records.any
            (fun q => purgeEligible now retention q && (pathOf q == p)) with
        | false => rfl
        | true =>
          exfalso
          obtain ⟨q, hq, hf⟩ := List.any_eq_true.mp hA
          rw [hfilt] at hq
          have h2 := (List.mem_filter.mp hq).2
          have h3 : purgeEligible now retention q = false := by
            cases hE : purgeEligible now retention q with
            | false => rfl
            | true => rw [hE] at h2; cases h2
          rw [h3, Bool.false_and] at hf
          cases hf
      show (if (cleanup_run σ now retention).records.any
          (fun q => purgeEligible now retention q && (pathOf q == p))
          then (none : Option (List Nat))
          else (cleanup_run σ now retention).disk p)
        = (cleanup_run σ now retention).disk p
      rw [hany]
      simp
    · rfl
    · rfl

/-- Witness for C7: in the state where the scenario record was
soft-deleted at time 1, a cleanup at time 1 with retention window 0
removes its record and leaves no bytes at its path. -/
theorem cleanup_purges_witness :
    scRecordDeleted ∉ (cleanup_run scState2 1 0).records ∧
    (cleanup_run scState2 1 0).disk (pathOf scRecordDeleted) = none :=
  cleanup_purges_and_idempotent.1 scState2 1 0 scRecordDeleted
    (by decide) (by decide)

theorem usedBytes_saveApply_self (σ : ServiceState) (owner fn : String)
    (content : List Nat) (m : List (String × String)) (t : Nat) :
    usedBytes (saveApply σ owner fn content m t) owner
      = usedBytes σ owner + content.length := by
  show (if owner = owner then usedBytes σ owner + content.length
        else σ.used owner) = usedBytes σ owner + content.length
  rw [if_pos rfl]

theorem saveOutcome_ok (cfg : Config) (σ : ServiceState) (owner fn : String)
    (content : List Nat) (m : List (String × String)) (t : Nat)
    (hext : extAllowed cfg (lowerStr (extOf fn)) = true)
    (hsize : content.length ≤ cfg.max_file_size)
    (hquota : usedBytes σ owner + content.length
      ≤ cfg.max_total_size_per_user) :
    saveOutcome cfg σ owner fn content m t
      = (true, saveApply σ owner fn content m t) := by
  unfold saveOutcome save_file
  rw [if_neg (by rw [hext]; simp), if_neg (not_lt.mpr hsize),
    if_neg (not_lt.mpr hquota)]

theorem saveOutcome_quota_fail (cfg : Config) (σ : ServiceState)
    (owner fn : String) (content : List Nat) (m : List (String × String))
    (t : Nat)
    (hext : extAllowed cfg (lowerStr (extOf fn)) = true)
    (hsize : content.length ≤ cfg.max_file_size)
    (hquota : cfg.max_total_size_per_user
      < usedBytes σ owner + content.length) :
    saveOutcome cfg σ owner fn content m t = (false, σ) := by
  unfold saveOutcome save_file
  rw [if_neg (by rw [hext]; simp), if_neg (not_lt.mpr hsize),
    if_pos hquota]

theorem saveOutcome_true (cfg : Config) (σ : ServiceState)
    (owner fn : String) (content : List Nat) (m : List (String × String))
    (t : Nat)
    (h : (saveOutcome cfg σ owner fn content m t).1 = true) :
    usedBytes σ owner + content.length ≤ cfg.max_total_size_per_user ∧
    usedBytes (saveOutcome cfg σ owner fn content m t).2 owner
      = usedBytes σ owner + content.length := by
  unfold saveOutcome save_file at h ⊢
  by_cases e1 : extAllowed cfg (lowerStr (extOf fn)) = false
  · rw [if_pos e1] at h
    exact absurd h Bool.false_ne_true
  · rw [if_neg e1] at h ⊢
    by_cases e2 : cfg.max_file_size < content.length
    · rw [if_pos e2] at h
      exact absurd h Bool.false_ne_true
    · rw [if_neg e2] at h ⊢
      by_cases e3 : cfg.max_total_size_per_user
          < usedBytes σ owner + content.length
      · rw [if_pos e3] at h
        exact absurd h Bool.false_ne_true
      · rw [if_neg e3]
        exact ⟨not_lt.mp e3, usedBytes_saveApply_self σ owner fn content m t⟩

set_option maxRecDepth 16384 in
/-- C8 counterexample: cap 100, two 150-byte saves by the same user:
jointly over the cap, yet in the sequential interleaving neither
succeeds (each already fails its own quota check), so "exactly one
succeeds when they jointly exceed the cap" is false. -/
theorem concurrent_saves_counterexample :
    cfg100.max_total_size_per_user
      < usedBytes initState "u" + (bytes150.length + bytes150.length) ∧
    (saveOutcome cfg100 initState "u" "a.bin" bytes150 [] 0).1 = false ∧
    (saveOutcome cfg100
        (saveOutcome cfg100 initState "u" "a.bin" bytes150 [] 0).2
        "u" "b.bin" bytes150 [] 1).1 = false := by
  refine ⟨by decide, by decide, by decide⟩

/-- C8 (amended): saves are atomic with respect to same-user saves
(spec §5), so an interleaving of two saves is one of the two sequential
orders, both instances of this symmetric statement: when the combined
size exceeds the per-user cap the two saves never both succeed — and
exactly one (the first) succeeds when each save also passes its
extension and per-file checks and fits individually; both succeed only
when they jointly fit under the cap. -/
theorem concurrent_saves_cap (cfg : Config) (σ : ServiceState)
    (owner fn1 fn2 : String) (c1 c2 : List Nat)
    (m1 m2 : List (String × String)) (t1 t2 : Nat) :
    (cfg.max_total_size_per_user
        < usedBytes σ owner + (c1.length + c2.length) →
      ¬((saveOutcome cfg σ owner fn1 c1 m1 t1).1 = true ∧
        (saveOutcome cfg (saveOutcome cfg σ owner fn1 c1 m1 t1).2
          owner fn2 c2 m2 t2).1 = true)) ∧
    ((saveOutcome cfg σ owner fn1 c1 m1 t1).1 = true ∧
      (saveOutcome cfg (saveOutcome cfg σ owner fn1 c1 m1 t1).2
        owner fn2 c2 m2 t2).1 = true →
      usedBytes σ owner + (c1.length + c2.length)
        ≤ cfg.max_total_size_per_user) ∧
    (extAllowed cfg (lowerStr (extOf fn1)) = true →
      extAllowed cfg (lowerStr (extOf fn2)) = true →
      c1.length ≤ cfg.max_file_size → c2.length ≤ cfg.max_file_size →
      usedBytes σ owner + c1.length ≤ cfg.max_total_size_per_user →
      cfg.max_total_size_per_user
        < usedBytes σ owner + (c1.length + c2.length) →
      (saveOutcome cfg σ owner fn1 c1 m1 t1).1 = true ∧
      (saveOutcome cfg (saveOutcome cfg σ owner fn1 c1 m1 t1).2
        owner fn2 c2 m2 t2).1 = false) := by
  refine ⟨?_, ?_, ?_⟩
  · intro hover hboth
    obtain ⟨h1, h2⟩ := hboth
    obtain ⟨hle1, hused1⟩ := saveOutcome_true cfg σ owner fn1 c1 m1 t1 h1
    obtain ⟨hle2, -⟩ := saveOutcome_true cfg _ owner fn2 c2 m2 t2 h2
    rw [hused1] at hle2
    omega
  · intro hboth
    obtain ⟨h1, h2⟩ := hboth
    obtain ⟨hle1, hused1⟩ := saveOutcome_true cfg σ owner fn1 c1 m1 t1 h1
    obtain ⟨hle2, -⟩ := saveOutcome_true cfg _ owner fn2 c2 m2 t2 h2
    rw [hused1] at hle2
    omega
  · intro hext1 hext2 hs1 hs2 hfit1 hover
    have ho1 := saveOutcome_ok cfg σ owner fn1 c1 m1 t1 hext1 hs1 hfit1
    rw [ho1]
    refine ⟨rfl, ?_⟩
    show (saveOutcome cfg (saveApply σ owner fn1 c1 m1 t1)
        owner fn2 c2 m2 t2).1 = false
    have hq2 : cfg.max_total_size_per_user
        < usedBytes (saveApply σ owner fn1 c1 m1 t1) owner + c2.length := by
      rw [usedBytes_saveApply_self]
      omega
    rw [saveOutcome_quota_fail cfg (saveApply σ owner fn1 c1 m1 t1)
      owner fn2 c2 m2 t2 hext2 hs2 hq2]

/-- Witness for C8 (amended): cap 100, used 0, two 60-byte saves: the
first succeeds and the second is rejected. -/
theorem concurrent_saves_cap_witness :
    (saveOutcome cfg100 initState "u" "a.bin" bytes60 [] 0).1 = true ∧
    (saveOutcome cfg100
        (saveOutcome cfg100 initState "u" "a.bin" bytes60 [] 0).2
        "u" "b.bin" bytes60 [] 1).1 = false :=
  (concurrent_saves_cap cfg100 initState "u" "a.bin" "b.bin"
      bytes60 bytes60 [] [] 0 1).2.2
    (by decide) (by decide) (by decide) (by decide) (by decide) (by decide)

/-- C9: every `SyncUploadClient` method returns exactly the value — or,
for the `Except`-valued upload path, exactly the exception outcome —
that the wrapped `UploadClient` method produces on the same arguments;
`_run_async` adds no behaviour of its own. -/
theorem sync_client_matches_async :
    ∀ (s : SyncUploadClient) (σ : ServiceState),
      (∀ lc fn m now, s.upload_file σ lc fn m now
        = s.client.upload_file σ lc fn m now) ∧
      (∀ b, s.list_files σ b = s.client.list_files σ b) ∧
      (∀ fid, s.get_file_info σ fid = s.client.get_file_info σ fid) ∧
      (∀ fid m, s.update_metadata σ fid m
        = s.client.update_metadata σ fid m) ∧
      (∀ fid now, s.delete_file σ fid now
        = s.client.delete_file σ fid now) ∧
      (∀ fid, s.get_file_path σ fid = s.client.get_file_path σ fid) ∧
      (∀ fid t, s.save_to_local σ fid t = s.client.save_to_local σ fid t) := by
  intro s σ
  exact ⟨fun _ _ _ _ => rfl, fun _ => rfl, fun _ => rfl, fun _ _ => rfl,
    fun _ _ => rfl, fun _ => rfl, fun _ _ => rfl⟩

/-- C10: `save_to_local` returns false and leaves the file system
untouched when the record is absent, when its status is not ACTIVE, or
when the stored bytes are missing on disk; and it returns true exactly
by copying the stored file's full content to the target path, leaving
every other path unchanged. -/
theorem save_to_local_spec :
    ∀ (c : UploadClient) (σ : ServiceState) (fid : Nat) (target : String),
      (get_file σ c.user_id fid = none →
        c.save_to_local σ fid target = (false, σ.disk)) ∧
      (∀ r, get_file σ c.user_id fid = some r →
        r.status ≠ FileStatus.active →
        c.save_to_local σ fid target = (false, σ.disk)) ∧
      (∀ r, get_file σ c.user_id fid = some r →
        σ.disk (pathOf r) = none →
        c.save_to_local σ fid target = (false, σ.disk)) ∧
      (∀ r content, get_file σ c.user_id fid = some r →
        r.status = FileStatus.active →
        σ.disk (pathOf r) = some content →
        (c.save_to_local σ fid target).1 = true ∧
        (c.save_to_local σ fid target).2 target = some content ∧
        (∀ p, p ≠ target →
          (c.save_to_local σ fid target).2 p = σ.disk p)) := by
  intro c σ fid target
  refine ⟨?_, ?_, ?_, ?_⟩
  · intro hget
    unfold UploadClient.save_to_local
    rw [hget]
  · intro r hget hstat
    have hb : (r.status == FileStatus.active) = false := by
      cases hE : (r.status == FileStatus.active)
      · rfl
      · exact absurd (beq_iff_eq.mp hE) hstat
    simp [UploadClient.save_to_local, hget, hb]
  · intro r hget hdisk
    cases hE : (r.status == FileStatus.active)
    · simp [UploadClient.save_to_local, hget, hE]
    · simp [UploadClient.save_to_local, hget, hE, hdisk]
  · intro r content hget hstat hdisk
    have hb : (r.status == FileStatus.active) = true := by
      rw [hstat]
      exact beq_self_eq_true _
    have hred : c.save_to_local σ fid target
        = (true, fun p => if p = target then some content else σ.disk p) := by
      simp [UploadClient.save_to_local, hget, hb, hdisk]
    rw [hred]
    refine ⟨rfl, ?_, ?_⟩
    · show (if target = target then some content else σ.disk target)
        = some content
      rw [if_pos rfl]
    · intro p hp
      show (if p = target then some content else σ.disk p) = σ.disk p
      rw [if_neg hp]

/-- Witness for C10: in the scenario state, copying file 0 of user "u"
to "local/a.bin" succeeds and writes exactly the stored 60 bytes there,
leaving other paths unchanged. -/
theorem save_to_local_spec_witness :
    ((UploadClient.mk cfg100 "u").save_to_local scState1 0 "local/a.bin").1
      = true ∧
    ((UploadClient.mk cfg100 "u").save_to_local scState1 0
      "local/a.bin").2 "local/a.bin" = some bytes60 ∧
    (∀ p, p ≠ "local/a.bin" →
      ((UploadClient.mk cfg100 "u").save_to_local scState1 0
        "local/a.bin").2 p = scState1.disk p) :=
  (save_to_local_spec (UploadClient.mk cfg100 "u") scState1 0
      "local/a.bin").2.2.2 scRecord bytes60 (by decide) (by decide) (by rfl)
